import Mathlib

/-!
Verification development for the IntrospectMe schema-reconstruction tool.

The Rust sources are embedded shallowly:
* `src/client.rs` — error-message mining (`parse_probe_response` and the three
  regexes `SUGGESTION_RE`, `FIELD_NAME_RE`, `SUBFIELD_RE`), modelled as
  deterministic scanners over `List Char` that implement exactly the matching
  semantics of those concrete patterns (leftmost match, lazy `.*?` with
  backtracking over later occurrences, greedy-irrelevant `[^"]+` and `[^?]+`
  classes, `.` not matching a newline).
* `src/wordlist.rs` — `BASE_WORDS`, `generate_mutations`, `full_probe_list`.
* `src/schema.rs` — `ReconstructedSchema` with `add_field`, `set_field_type`,
  `log_discovery`, `to_sdl`, `infer_scalar_type`; `BTreeMap` is modelled as a
  key-sorted association list.
* `src/walker.rs` — `probe_type_recursive` and the phase-2 loop of `run`,
  with the HTTP client abstracted as an environment mapping each query to the
  error list of its response (`none` modelling a transport failure).

Strings are modelled as `List Char`; Rust compares and slices byte-wise on
UTF-8, which on these values coincides with code-point order.
-/

/-- Character-list strings, the model of Rust `String`/`&str`. -/
abbrev Str := List Char

/-- Match a literal at the head of `s`; on success return the remainder.
This models matching a literal fragment of a regex. -/
def litMatch : Str → Str → Option Str
  | [], s => some s
  | _ :: _, [] => none
  | a :: l, b :: s => if a = b then litMatch l s else none

/-- Scan up to the first occurrence of `stop`; return the characters before it
and the remainder after it, or `none` when `stop` does not occur.  This is the
deterministic reading of a regex fragment `[^x]*x`: the character class cannot
cross the sentinel, so greedy and lazy agree. -/
def capUntil (stop : Char) : Str → Option (Str × Str)
  | [] => none
  | ch :: r =>
    if ch = stop then some ([], r)
    else
      match capUntil stop r with
      | some (cap, rest) => some (ch :: cap, rest)
      | none => none

/-- Capture group for a regex fragment matching one-or-more non-quote
characters followed by a closing quote. -/
def quotedCapture (s : Str) : Option (Str × Str) :=
  match capUntil '"' s with
  | some (cap, rest) => if cap = [] then none else some (cap, rest)
  | none => none

/-- Capture group for the tail fragment of `SUGGESTION_RE`: one-or-more
non-question-mark characters followed by a question mark. -/
def clauseCap (s : Str) : Option Str :=
  match capUntil '?' s with
  | some (cap, _) => if cap = [] then none else some cap
  | none => none

/-- The literal between the lazy gap and the suggestion clause. -/
def didYouMeanLit : Str := "Did you mean ".data

/-- The lazy gap of `SUGGESTION_RE`: skip the least number of non-newline
characters such that the literal and the clause capture both succeed,
backtracking to later occurrences when the clause capture fails. -/
def meanClause : Str → Option Str
  | [] => none
  | ch :: r =>
    match (litMatch didYouMeanLit (ch :: r)).bind clauseCap with
    | some c => some c
    | none => if ch = '\n' then none else meanClause r

/-- The alternation head of `SUGGESTION_RE`: a verbose wording and a terser
wording.  The two branches differ at their first character, so alternation
order cannot matter. -/
def wordingRest (s : Str) : Option Str :=
  match litMatch "Cannot query".data s with
  | some r => some r
  | none => litMatch "Unknown".data s

/-- Attempt `SUGGESTION_RE` anchored at the start of `s`; the captures are the
queried field, the parent type and the raw suggestion clause. -/
def matchSuggestionAt (s : Str) : Option (Str × Str × Str) :=
  (wordingRest s).bind fun s1 =>
  (litMatch " field \"".data s1).bind fun s2 =>
  (quotedCapture s2).bind fun p2 =>
  (litMatch " on type \"".data p2.2).bind fun s4 =>
  (quotedCapture s4).bind fun p4 =>
  (meanClause p4.2).map fun c => (p2.1, p4.1, c)

/-- Unanchored leftmost search with `SUGGESTION_RE`, the model of
`SUGGESTION_RE.captures`. -/
def findSuggestion : Str → Option (Str × Str × Str)
  | [] => none
  | ch :: r =>
    match matchSuggestionAt (ch :: r) with
    | some x => some x
    | none => findSuggestion r

/-- Scan for an occurrence of a literal where the skipped characters may not
include a newline; the model of a regex fragment gap before a literal with no
later obligations. -/
def scanLit (lit : Str) : Str → Bool
  | [] => (litMatch lit []).isSome
  | ch :: r =>
    if (litMatch lit (ch :: r)).isSome then true
    else if ch = '\n' then false
    else scanLit lit r

/-- Attempt `SUBFIELD_RE` anchored at the start of `s`; captures are the field
name and its reported type. -/
def matchSubfieldAt : Str → Option (Str × Str)
  | [] => none
  | ch :: r =>
    if ch = 'F' ∨ ch = 'f' then
      (litMatch "ield \"".data r).bind fun s2 =>
      (quotedCapture s2).bind fun p2 =>
      (litMatch " of type \"".data p2.2).bind fun s4 =>
      (quotedCapture s4).bind fun p4 =>
      if scanLit "must have a selection of subfields".data p4.2 then some (p2.1, p4.1)
      else none
    else none

/-- Unanchored leftmost search with `SUBFIELD_RE`. -/
def findSubfield : Str → Option (Str × Str)
  | [] => none
  | ch :: r =>
    match matchSubfieldAt (ch :: r) with
    | some x => some x
    | none => findSubfield r

/-- One step of the quoted-token scanner: `none` means outside quotes,
`some acc` means a quote was opened and `acc` collected so far. -/
def qtGo : Option Str → Str → List Str
  | _, [] => []
  | none, c :: r => if c = '"' then qtGo (some []) r else qtGo none r
  | some acc, c :: r =>
    if c = '"' then
      if acc = [] then qtGo (some []) r
      else acc :: qtGo none r
    else qtGo (some (acc ++ [c])) r

/-- All captures of `FIELD_NAME_RE` over `s` in order: every maximal nonempty
quote-delimited token, the model of `FIELD_NAME_RE.captures_iter`. -/
def quotedTokens (s : Str) : List Str := qtGo none s

/-- Whether a name begins with the introspection double-underscore convention,
the model of `starts_with("__")`. -/
def dunder (s : Str) : Bool := (litMatch "__".data s).isSome

/-- A single GraphQL error; `locations` and `extensions` are never read by the
extraction logic and are omitted. -/
structure GraphQLError where
  message : Str
deriving DecidableEq

/-- Extracted field suggestion from an error message. -/
structure FieldSuggestion where
  queried_field : Str
  suggestions : List Str
  parent_type : Option Str
deriving DecidableEq

/-- Information extracted from a subfield-selection error. -/
structure ObjectTypeHint where
  field_name : Str
  type_name : Str
deriving DecidableEq

/-- Result of a probe query. -/
structure ProbeResult where
  suggestions : List FieldSuggestion
  object_type_hints : List ObjectTypeHint
deriving DecidableEq

/-- Processing of one error message inside `parse_probe_response`'s loop. -/
def parseStep (acc : ProbeResult) (error : GraphQLError) : ProbeResult :=
  let acc1 : ProbeResult :=
    match findSuggestion error.message with
    | some (q, t, cl) =>
      let sugg := (quotedTokens cl).filter (fun s => !(dunder s))
      if sugg.isEmpty then acc
      else ⟨acc.suggestions ++ [⟨q, sugg, some t⟩], acc.object_type_hints⟩
    | none => acc
  match findSubfield error.message with
  | some (f, ty) => ⟨acc1.suggestions, acc1.object_type_hints ++ [⟨f, ty⟩]⟩
  | none => acc1

/-- Parse all useful information from GraphQL error messages. -/
def parse_probe_response (errors : List GraphQLError) : ProbeResult :=
  errors.foldl parseStep ⟨[], []⟩

/-! Embedding of `src/wordlist.rs`. -/

/-- Built-in wordlist of common GraphQL field names. -/
def BASE_WORDS : List Str :=
  (["user", "users", "me", "account", "accounts", "admin", "admins", "email",
    "password", "token", "tokens", "login", "logout", "register", "signup",
    "session", "sessions", "auth", "authenticate", "authorization",
    "permission", "permissions", "role", "roles",
    "id", "name", "title", "description", "type", "status", "state", "enabled",
    "active", "created", "createdAt", "updated", "updatedAt", "deleted",
    "deletedAt", "date", "timestamp", "slug", "url", "image", "images",
    "avatar", "phone", "address", "city", "country", "zip", "code", "key",
    "value", "label", "message", "content", "body", "text", "comment",
    "comments", "tag", "tags", "category", "categories",
    "profile", "profiles", "firstName", "lastName", "username", "displayName",
    "bio", "website",
    "product", "products", "order", "orders", "cart", "carts", "checkout",
    "payment", "payments", "price", "amount", "total", "subtotal", "tax",
    "discount", "coupon", "shipping", "inventory", "sku", "quantity", "item",
    "items",
    "search", "filter", "filters", "sort", "sortBy", "limit", "offset",
    "cursor", "after", "before", "first", "last", "page", "pageSize", "skip",
    "node", "nodes", "edge", "edges", "connection", "connections", "pageInfo",
    "totalCount", "hasNextPage", "hasPreviousPage", "startCursor", "endCursor",
    "create", "update", "delete", "remove", "add", "set", "input", "data",
    "result", "success", "error", "errors",
    "subscription", "subscriptions", "event", "events", "notification",
    "notifications",
    "query", "mutation", "schema", "health", "version", "config",
    "configuration", "settings", "setting", "log", "logs", "audit",
    "analytics", "metrics", "stats", "statistics", "report", "reports",
    "dashboard",
    "parent", "children", "child", "group", "groups", "team", "teams",
    "member", "members", "organization", "organizations", "org", "workspace",
    "project", "projects", "repository", "repositories", "file", "files",
    "folder", "folders", "document", "documents", "post", "posts", "article",
    "articles", "thread", "threads", "channel", "channels", "viewer"] :
    List String).map String.data

/-- Swap of the first two characters, the `chars` vector swap. -/
def swapFirstTwo : Str → Str
  | a :: b :: r => b :: a :: r
  | s => s

/-- Generate typo mutations of a word, in the order the source pushes them:
typo prefix, drop-last (length > 2), swap of the first two characters
(length ≥ 2 and different from the word), the four suffixes, then the
case-flip of the first character. -/
def generate_mutations (word : Str) : List Str :=
  (['x'] ++ word) ::
  ((if word.length > 2 then [word.take (word.length - 1)] else []) ++
   (if word.length ≥ 2 then
      (if swapFirstTwo word ≠ word then [swapFirstTwo word] else [])
    else []) ++
   [word ++ "s".data, word ++ "Id".data, word ++ "By".data, word ++ "List".data] ++
   (match word with
    | [] => []
    | c :: rest =>
      (if c.isLower then [c.toUpper :: rest] else []) ++
      (if c.isUpper then [c.toLower :: rest] else [])))

/-- One dedup step of `full_probe_list`: the pair is the seen-set (the
`HashSet`, modelled as a list with membership) and the output vector. -/
def probeStep (acc : List Str × List Str) (m : Str) : List Str × List Str :=
  if m ∈ acc.1 then acc else (m :: acc.1, acc.2 ++ [m])

/-- The word loop of `full_probe_list`: fold every base word's mutations
through the dedup step. -/
def wordFold (ws : List Str) (acc : List Str × List Str) : List Str × List Str :=
  ws.foldl (fun acc word => (generate_mutations word).foldl probeStep acc) acc

/-- The seen-set component of the dedup state. -/
def seenOf (acc : List Str × List Str) : List Str :=
  match acc with
  | (seen, _) => seen

/-- The output component of the dedup state. -/
def probesOf (acc : List Str × List Str) : List Str :=
  match acc with
  | (_, probes) => probes

/-- The full probe wordlist: all mutations of all base words, deduplicated in
first-seen order. -/
def full_probe_list : List Str := probesOf (wordFold BASE_WORDS ([], []))

/-! Embedding of `src/schema.rs`.  `BTreeMap` is modelled as a key-sorted
association list: `insertKey` keeps keys strictly sorted (replacing on an
equal key, which matches map insertion), `lookupKey` is key lookup. -/

/-- Byte-lexicographic order on keys, the `Ord` used by `BTreeMap<String, _>`
(UTF-8 byte order coincides with code-point order). -/
def keyLt : Str → Str → Bool
  | [], [] => false
  | [], _ :: _ => true
  | _ :: _, [] => false
  | a :: as, b :: bs => if a < b then true else if a = b then keyLt as bs else false

/-- Sorted-map insertion, replacing the value on an equal key. -/
def insertKey {α : Type} : List (Str × α) → Str → α → List (Str × α)
  | [], k, v => [(k, v)]
  | (k', v') :: rest, k, v =>
    if keyLt k k' then (k, v) :: (k', v') :: rest
    else if k = k' then (k, v) :: rest
    else (k', v') :: insertKey rest k v

/-- Map lookup. -/
def lookupKey {α : Type} : List (Str × α) → Str → Option α
  | [], _ => none
  | (k', v) :: rest, k => if k = k' then some v else lookupKey rest k

/-- Information about a discovered field. -/
structure FieldInfo where
  name : Str
  type_name : Option Str
  is_list : Bool
deriving DecidableEq

/-- A discovered GraphQL type with its fields. -/
structure DiscoveredType where
  name : Str
  fields : List (Str × FieldInfo)
deriving DecidableEq

/-- A single discovery entry for the JSON output. -/
structure DiscoveryEntry where
  parent_type : Str
  probed_field : Str
  discovered_fields : List Str
deriving DecidableEq

/-- The reconstructed schema. -/
structure ReconstructedSchema where
  types : List (Str × DiscoveredType)
  query_type : Str
  discovery_log : List DiscoveryEntry
deriving DecidableEq

/-- The empty schema produced by `ReconstructedSchema::new`. -/
def emptySchema : ReconstructedSchema := ⟨[], "Query".data, []⟩

/-- The list-shape naming heuristic computed at field creation: ends in `s`,
does not end in `ss`, and is not one of the fixed known-singular words. -/
def isListName (f : Str) : Bool :=
  "s".data.isSuffixOf f && !("ss".data.isSuffixOf f) &&
  !(f = "address".data) && !(f = "status".data) && !(f = "success".data)

/-- Register a discovered field on a type; returns whether the field was new
together with the updated schema (the Rust method mutates and returns `bool`). -/
def ReconstructedSchema.add_field (s : ReconstructedSchema) (typeName fieldName : Str) :
    Bool × ReconstructedSchema :=
  match lookupKey s.types typeName with
  | some ty =>
    if (lookupKey ty.fields fieldName).isSome then (false, s)
    else
      (true,
       ⟨insertKey s.types typeName
          ⟨ty.name, insertKey ty.fields fieldName ⟨fieldName, none, isListName fieldName⟩⟩,
        s.query_type, s.discovery_log⟩)
  | none =>
    (true,
     ⟨insertKey s.types typeName
        ⟨typeName, insertKey [] fieldName ⟨fieldName, none, isListName fieldName⟩⟩,
      s.query_type, s.discovery_log⟩)

/-- Set the return type of a field; a no-op when the type or field is
unknown. -/
def ReconstructedSchema.set_field_type (s : ReconstructedSchema)
    (parentType fieldName newType : Str) : ReconstructedSchema :=
  match lookupKey s.types parentType with
  | none => s
  | some ty =>
    match lookupKey ty.fields fieldName with
    | none => s
    | some fi =>
      ⟨insertKey s.types parentType
         ⟨ty.name, insertKey ty.fields fieldName ⟨fi.name, some newType, fi.is_list⟩⟩,
       s.query_type, s.discovery_log⟩

/-- Append one discovery entry to the audit log. -/
def ReconstructedSchema.log_discovery (s : ReconstructedSchema)
    (parentType probedField : Str) (discovered : List Str) : ReconstructedSchema :=
  ⟨s.types, s.query_type, s.discovery_log ++ [⟨parentType, probedField, discovered⟩]⟩

/-- Substring test, the model of `str::contains`. -/
def containsSub (needle : Str) : Str → Bool
  | [] => (litMatch needle []).isSome
  | s@(_ :: r) => (litMatch needle s).isSome || containsSub needle r

/-- Infer a scalar type from a field name, rule for rule from the source:
identifier names, counting and quantity names, boolean-flavoured names,
timestamp names, otherwise `String`. -/
def infer_scalar_type (fieldName : Str) : Str :=
  let lower := fieldName.map Char.toLower
  if lower = "id".data ∨ "_id".data.isSuffixOf lower ∨ "id".data.isSuffixOf lower then
    "ID".data
  else if containsSub "count".data lower ∨ lower = "limit".data ∨ lower = "offset".data ∨
      lower = "quantity".data ∨ lower = "total".data ∨ lower = "amount".data ∨
      lower = "price".data ∨ lower = "age".data ∨ lower = "size".data then
    "Int".data
  else if containsSub "is_".data lower ∨ (litMatch "is".data lower).isSome ∨
      (litMatch "has".data lower).isSome ∨ lower = "active".data ∨
      lower = "enabled".data ∨ lower = "deleted".data ∨ lower = "success".data then
    "Boolean".data
  else if containsSub "at".data lower ∧
      (containsSub "created".data lower ∨ containsSub "updated".data lower ∨
       containsSub "deleted".data lower) then
    "DateTime".data
  else if lower = "date".data ∨ lower = "timestamp".data then
    "DateTime".data
  else
    "String".data

/-- The type text rendered for one field: a set type gets list brackets when
`is_list`; an unset type falls back to the scalar inference on the name. -/
def fieldTypeStr (fi : FieldInfo) : Str :=
  match fi.type_name with
  | some t => if fi.is_list then "[".data ++ t ++ "]".data else t
  | none => infer_scalar_type fi.name

/-- The SDL line rendered for one field. -/
def renderField (fi : FieldInfo) : Str :=
  "  ".data ++ fi.name ++ ": ".data ++ fieldTypeStr fi ++ "\n".data

/-- Concatenation of a list of strings. -/
def concatAll (l : List Str) : Str := l.foldl (fun a b => a ++ b) []

/-- The SDL block rendered for one type. -/
def renderTypeBlock (name : Str) (ty : DiscoveredType) : Str :=
  "type ".data ++ name ++ " \x7b\n".data ++
  concatAll (ty.fields.map (fun kv => renderField kv.2)) ++ "\x7d\n\n".data

/-- Removal of trailing whitespace, the model of `str::trim_end`. -/
def trimEndWs (s : Str) : Str := (s.reverse.dropWhile (fun c => c.isWhitespace)).reverse

/-- Generate the SDL output.  The source stably sorts the (already sorted)
`BTreeMap` keys with a comparator placing `query_type` first and ordering the
rest lexicographically; since keys are unique and sorted this equals moving
the `query_type` entry (if any) to the front. -/
def ReconstructedSchema.to_sdl (s : ReconstructedSchema) : Str :=
  let header := "schema \x7b\n  query: ".data ++ s.query_type ++ "\n\x7d\n\n".data
  let ordered := s.types.filter (fun kv => decide (kv.1 = s.query_type)) ++
    s.types.filter (fun kv => decide (kv.1 ≠ s.query_type))
  trimEndWs (header ++ concatAll (ordered.map (fun kv => renderTypeBlock kv.1 kv.2)))

/-! Embedding of `src/walker.rs`.  The HTTP client is abstracted as an
environment `env : Str → Option (List GraphQLError)` mapping each query text
to the error list of its decoded response, `none` modelling a transport or
decode failure.  Rate limiting, timeouts and progress output have no
observable effect on the state and are not modelled.  The walker state carries
a ghost field `events` recording, in order, each type name admitted by the
visited-set test; it is instrumentation for stating temporal properties and
is written exactly where the source inserts into `probed_types`. -/

/-- Parsed result of sending one probe query (`GraphQLClient::send_probe`). -/
def send_probe (env : Str → Option (List GraphQLError)) (query : Str) :
    Option ProbeResult :=
  (env query).map parse_probe_response

/-- Modelled from the spec: `GraphQLClient::field_exists` is called by the
walker but absent from the sources.  Per the specification's existence check,
a field exists exactly when the response holds no unknown/cannot-query
rejection naming that exact field; a transport failure is an error. -/
def field_exists (env : Str → Option (List GraphQLError)) (query fieldName : Str) :
    Option Bool :=
  (env query).map (fun errs =>
    !(errs.any (fun e =>
      containsSub ("Cannot query field \"".data ++ fieldName ++ "\"".data) e.message ||
      containsSub ("Unknown field \"".data ++ fieldName ++ "\"".data) e.message)))

/-- Count of a character in a string, the model of `str::matches(c).count()`. -/
def countChar (c : Char) (s : Str) : Nat := s.count c

/-- Repetition of a string, the model of `str::repeat`. -/
def repeatStr : Nat → Str → Str
  | 0, _ => []
  | n + 1, l => l ++ repeatStr n l

/-- Synthesize the probe query for a context: nest the probe one group inside
the context, then append one closing token per opening brace of the context.
This is the query construction repeated at the three probe sites of the
walker. -/
def synthQuery (ctx probe : Str) : Str :=
  ("\x7b ".data ++ ctx ++ " \x7b ".data ++ probe ++ " \x7d \x7d".data) ++
  repeatStr (countChar '\x7b' ctx) " \x7d".data

/-- Build context queries for reaching a type from a root field: the bare
field and the field with a synthetic id argument. -/
def build_root_context_queries (fieldName : Str) : List Str :=
  [fieldName, fieldName ++ "(id: \"1\")".data]

/-- Extension of a parent context by one nested field
(`format!("{} {{ {}", ctx, field_name)`). -/
def extendCtx (ctx fieldName : Str) : Str := ctx ++ " \x7b ".data ++ fieldName

/-- Short common field names brute-forced without suggestion mining. -/
def SHORT_FIELD_BRUTE : List Str :=
  (["id", "pk", "key", "uid", "me", "ok", "ip", "to", "cc", "by",
    "on", "at", "of", "in", "up", "no", "do", "is", "or", "as",
    "ref", "url", "uri", "tag", "bio", "age", "dob", "sex", "pin",
    "otp", "jwt", "ssh", "dns", "vpn", "api", "app", "env", "src",
    "raw", "img", "svg", "pdf", "doc", "faq", "sku", "ean", "upc",
    "vat", "tax", "fee", "qty", "sum", "avg", "min", "max", "ttl",
    "lat", "lng", "lon", "alt", "zip", "geo", "map", "log", "job",
    "pid", "rid", "tid", "eid", "gid", "cid", "sid", "mid",
    "cpu", "ram", "gpu", "ssd", "hdd", "mac", "ip4", "ip6",
    "org", "hub", "pod", "vpc", "cdn", "ssl", "tls", "arn", "iam",
    "nft", "dao", "gas", "eth", "btc", "abi", "elo", "mmr",
    "xp", "hp", "mp", "sp"] : List String).map String.data

/-- Field names judged likely scalar by the walker's allowlist. -/
def is_likely_scalar (fieldName : Str) : Bool :=
  decide (fieldName ∈
    (["id", "name", "email", "password", "token", "title", "description",
      "body", "text", "content", "message", "slug", "url", "phone", "code",
      "key", "value", "label", "bio", "website", "username", "displayName",
      "firstName", "lastName", "avatar", "image", "status", "state", "type",
      "role", "active", "enabled", "deleted", "success", "price", "amount",
      "total", "subtotal", "tax", "discount", "quantity", "sku", "zip",
      "city", "country", "date", "timestamp", "createdAt", "updatedAt",
      "deletedAt", "totalCount", "hasNextPage", "hasPreviousPage",
      "startCursor", "endCursor", "cursor", "limit", "offset", "pageSize",
      "sort", "sortBy", "category"] : List String).map String.data)

/-- First-wins map insertion, the model of `HashMap::entry(..).or_insert(..)`.
Iteration order of the hash map is determinized to insertion order. -/
def entryOr (m : List (Str × Str)) (k v : Str) : List (Str × Str) :=
  if (lookupKey m k).isSome then m else m ++ [(k, v)]

/-- Set insertion, the model of `HashSet::insert`, determinized to insertion
order. -/
def insertOnce (l : List Str) (x : Str) : List Str :=
  if x ∈ l then l else l ++ [x]

/-- Processing of one extracted suggestion inside the recursive probe loop:
default the parent to the probed type, discard suggestions reported for a
different type, log the discovery, then add each suggested field, recording
the novel ones.  The running triple is (schema, discovered set, found flag). -/
def processSuggestion (typeName : Str) (acc : ReconstructedSchema × List Str × Bool)
    (sugg : FieldSuggestion) : ReconstructedSchema × List Str × Bool :=
  let parent := sugg.parent_type.getD typeName
  if parent = typeName then
    let sch := acc.1.log_discovery parent sugg.queried_field sugg.suggestions
    let r := sugg.suggestions.foldl
      (fun (p : ReconstructedSchema × List Str) fieldName =>
        let a := p.1.add_field parent fieldName
        (a.2, if a.1 then insertOnce p.2 fieldName else p.2))
      (sch, acc.2.1)
    (r.1, r.2, true)
  else acc

/-- Collection of child-type hints inside the recursive probe loop: hints that
name the probed type itself are ignored, others are recorded first-wins. -/
def processHints (typeName : Str) (childs : List (Str × Str))
    (hints : List ObjectTypeHint) : List (Str × Str) :=
  hints.foldl
    (fun ch h => if h.type_name = typeName then ch else entryOr ch h.field_name h.type_name)
    childs

/-- The context loop for one probe word: try each context in order, skip
transport failures, process suggestions and hints, and stop at the first
context that yielded a usable suggestion. -/
def probeCtxLoop (env : Str → Option (List GraphQLError)) (typeName probe : Str) :
    List Str → ReconstructedSchema × List Str × List (Str × Str) →
    ReconstructedSchema × List Str × List (Str × Str)
  | [], acc => acc
  | ctx :: rest, acc =>
    match send_probe env (synthQuery ctx probe) with
    | none => probeCtxLoop env typeName probe rest acc
    | some result =>
      let s3 := result.suggestions.foldl (processSuggestion typeName) (acc.1, acc.2.1, false)
      let childs2 := processHints typeName acc.2.2 result.object_type_hints
      if s3.2.2 then (s3.1, s3.2.1, childs2)
      else probeCtxLoop env typeName probe rest (s3.1, s3.2.1, childs2)

/-- The context loop of the re-probe pass for one discovered field: collect
hints naming exactly this field, stopping once the field has a hint. -/
def recheckCtxLoop (env : Str → Option (List GraphQLError)) (fieldName : Str) :
    List Str → List (Str × Str) → List (Str × Str)
  | [], childs => childs
  | ctx :: rest, childs =>
    match send_probe env (synthQuery ctx fieldName) with
    | none => recheckCtxLoop env fieldName rest childs
    | some result =>
      let childs2 := result.object_type_hints.foldl
        (fun ch h => if h.field_name = fieldName then entryOr ch h.field_name h.type_name else ch)
        childs
      if (lookupKey childs2 fieldName).isSome then childs2
      else recheckCtxLoop env fieldName rest childs2

/-- The context loop of the short-name brute force for one candidate: the
first context whose existence check passes adds the field and stops. -/
def bruteCtxLoop (env : Str → Option (List GraphQLError)) (typeName shortField : Str) :
    List Str → ReconstructedSchema → ReconstructedSchema
  | [], sch => sch
  | ctx :: rest, sch =>
    match field_exists env (synthQuery ctx shortField) shortField with
    | some true => (sch.add_field typeName shortField).2
    | _ => bruteCtxLoop env typeName shortField rest sch

/-- Whether the schema already records this field on this type. -/
def typeHasField (sch : ReconstructedSchema) (typeName fieldName : Str) : Bool :=
  match lookupKey sch.types typeName with
  | some ty => (lookupKey ty.fields fieldName).isSome
  | none => false

/-- The walker state: the schema under the schema lock, the visited-type set
under its lock, and the ghost trace of admitted types. -/
structure WalkState where
  schema : ReconstructedSchema
  probed : List Str
  events : List Str
deriving DecidableEq

mutual

/-- Recursively probe a type through the given context queries: give up past
the depth bound, admit the type through the visited set (insert-if-absent),
run the probe loop, the re-probe pass and the short-name brute force, then
descend into each collected child type with extended contexts.  The probe
corpus (in the source the call `wordlist::full_probe_list()`) is threaded as
the parameter `probes`; `probeTypeRecursive` below instantiates it. -/
def probeTypeRecursiveW (probes : List Str) (env : Str → Option (List GraphQLError))
    (maxDepth : Nat) (typeName : Str) (ctxs : List Str) (depth : Nat)
    (st : WalkState) : WalkState :=
  if _hd : depth > maxDepth then st
  else if _hm : typeName ∈ st.probed then st
  else
    let r1 := probes.foldl
      (fun acc probe => probeCtxLoop env typeName probe ctxs acc)
      (st.schema, ([] : List Str), ([] : List (Str × Str)))
    let fieldsToCheck := r1.2.1.filter
      (fun f => !(is_likely_scalar f) && !((lookupKey r1.2.2 f).isSome))
    let childs := fieldsToCheck.foldl (fun ch f => recheckCtxLoop env f ctxs ch) r1.2.2
    let sch := SHORT_FIELD_BRUTE.foldl
      (fun sch shortField =>
        if typeHasField sch typeName shortField then sch
        else bruteCtxLoop env typeName shortField ctxs sch)
      r1.1
    walkChildrenW probes env maxDepth typeName ctxs depth childs
      ⟨sch, typeName :: st.probed, st.events ++ [typeName]⟩
termination_by (maxDepth + 2 - depth, 0)
decreasing_by
  apply Prod.Lex.left
  omega

/-- Descent into the collected child types: set each field's type on the
parent, then recurse one level deeper with every parent context extended by
the field. -/
def walkChildrenW (probes : List Str) (env : Str → Option (List GraphQLError))
    (maxDepth : Nat) (typeName : Str) (ctxs : List Str) (depth : Nat)
    (children : List (Str × Str)) (st : WalkState) : WalkState :=
  match children with
  | [] => st
  | (fieldName, childType) :: rest =>
    let st1 : WalkState :=
      ⟨st.schema.set_field_type typeName fieldName childType, st.probed, st.events⟩
    let st2 := probeTypeRecursiveW probes env maxDepth childType
      (ctxs.map (fun c => extendCtx c fieldName)) (depth + 1) st1
    walkChildrenW probes env maxDepth typeName ctxs depth rest st2
termination_by (maxDepth + 1 - depth, children.length)
decreasing_by
  · have h : maxDepth + 2 - (depth + 1) = maxDepth + 1 - depth := by omega
    rw [h]
    apply Prod.Lex.right
    simp only [List.length_cons]
    omega
  · apply Prod.Lex.right
    simp only [List.length_cons]
    omega

end

/-- The recursive probe step of the source, with the probe corpus the source
fetches from `wordlist::full_probe_list()`. -/
def probeTypeRecursive (env : Str → Option (List GraphQLError)) (maxDepth : Nat)
    (typeName : Str) (ctxs : List Str) (depth : Nat) (st : WalkState) : WalkState :=
  probeTypeRecursiveW full_probe_list env maxDepth typeName ctxs depth st

/-- Phase 2 of `TypeWalker::run`: for each root field with an object-type
hint, record the field's type on the root type, then recursively probe the
child type at depth 1 through the root context queries. -/
def runPhase2 (env : Str → Option (List GraphQLError)) (maxDepth : Nat)
    (rootTypeName : Str) (objectFields : List (Str × Str)) (st : WalkState) : WalkState :=
  objectFields.foldl
    (fun st p =>
      let st1 : WalkState :=
        ⟨st.schema.set_field_type rootTypeName p.1 p.2, st.probed, st.events⟩
      probeTypeRecursive env maxDepth p.2 (build_root_context_queries p.1) 1 st1)
    st

/-! Definitions used to state the claims. -/

/-- A mutating operation on the schema model, for stating properties of
operation sequences. -/
inductive ModelOp where
  | addF (typeName fieldName : Str)
  | setT (parentType fieldName newType : Str)
  | logD (parentType probedField : Str) (discovered : List Str)
deriving DecidableEq

/-- Application of one model operation. -/
def applyOp (s : ReconstructedSchema) : ModelOp → ReconstructedSchema
  | .addF typeName fieldName => (s.add_field typeName fieldName).2
  | .setT parentType fieldName newType => s.set_field_type parentType fieldName newType
  | .logD parentType probedField discovered =>
    s.log_discovery parentType probedField discovered

/-- Application of a sequence of model operations. -/
def applyOps (s : ReconstructedSchema) (ops : List ModelOp) : ReconstructedSchema :=
  ops.foldl applyOp s

/-- The field record stored for a field of a type, when both exist. -/
def fieldInfoOf (s : ReconstructedSchema) (typeName fieldName : Str) : Option FieldInfo :=
  (lookupKey s.types typeName).bind (fun ty => lookupKey ty.fields fieldName)

/-- The family of suggestion error messages recognized by `SUGGESTION_RE`:
a wording, the queried field, the parent type and the raw suggestion clause,
joined by the literal fragments both known engines emit. -/
def famMsg (w q t c : Str) : Str :=
  w ++ " field \"".data ++ q ++ "\" on type \"".data ++ t ++
  "\". Did you mean ".data ++ c ++ "?".data

/-- The family of subfield error messages recognized by `SUBFIELD_RE`. -/
def subfieldMsg (lead : Char) (f t : Str) : Str :=
  lead :: ("ield \"".data ++ f ++ "\" of type \"".data ++ t ++
    "\" must have a selection of subfields".data)

/-! Lemmas about the literal and capture scanners. -/

theorem litMatch_append (l r : Str) : litMatch l (l ++ r) = some r := by
  induction l with
  | nil => rfl
  | cons a as ih => simp [litMatch, ih]

theorem litMatch_ne_head {a b : Char} (l s : Str) (h : a ≠ b) :
    litMatch (a :: l) (b :: s) = none := by
  simp [litMatch, h]

theorem litMatch_some_eq {l s r : Str} (h : litMatch l s = some r) : s = l ++ r := by
  induction l generalizing s with
  | nil => simpa [litMatch] using h
  | cons a as ih =>
    cases s with
    | nil => simp [litMatch] at h
    | cons b bs =>
      by_cases hab : a = b
      · subst hab
        simp only [litMatch, if_pos rfl] at h
        simpa using ih h
      · simp [litMatch, hab] at h

theorem capUntil_append {stop : Char} {u : Str} (hu : stop ∉ u) (r : Str) :
    capUntil stop (u ++ stop :: r) = some (u, r) := by
  induction u with
  | nil => simp [capUntil]
  | cons a as ih =>
    have ha : ¬(a = stop) := by
      intro h
      exact hu (h ▸ List.mem_cons_self a as)
    have has : stop ∉ as := fun h => hu (List.mem_cons_of_mem a h)
    simp [capUntil, ha, ih has]

theorem capUntil_some_eq {stop : Char} {s cap rest : Str}
    (h : capUntil stop s = some (cap, rest)) : s = cap ++ stop :: rest := by
  induction s generalizing cap with
  | nil => simp [capUntil] at h
  | cons a as ih =>
    by_cases ha : a = stop
    · subst ha
      simp [capUntil] at h
      simp [h.1, h.2]
    · simp only [capUntil, if_neg ha] at h
      cases hc : capUntil stop as with
      | none => rw [hc] at h; simp at h
      | some pr =>
        rw [hc] at h
        cases pr with
        | mk c2 r2 =>
          simp at h
          obtain ⟨h1, h2⟩ := h
          subst h2
          subst h1
          simp [ih hc]

theorem quotedCapture_append {u : Str} (hne : u ≠ []) (hq : '"' ∉ u) (r : Str) :
    quotedCapture (u ++ '"' :: r) = some (u, r) := by
  simp [quotedCapture, capUntil_append hq, hne]

theorem clauseCap_append {u : Str} (hne : u ≠ []) (hq : '?' ∉ u) (r : Str) :
    clauseCap (u ++ '?' :: r) = some u := by
  simp [clauseCap, capUntil_append hq, hne]

theorem meanClause_cons (ch : Char) (r : Str) :
    meanClause (ch :: r) =
      match (litMatch didYouMeanLit (ch :: r)).bind clauseCap with
      | some c => some c
      | none => if ch = '\n' then none else meanClause r := by
  rw [meanClause]

theorem meanClause_fam {c : Str} (hne : c ≠ []) (hq : '?' ∉ c) :
    meanClause ('.' :: ' ' :: (didYouMeanLit ++ (c ++ ['?']))) = some c := by
  have hD : didYouMeanLit = 'D' :: "id you mean ".data := rfl
  have h1 : litMatch didYouMeanLit
      ('.' :: ' ' :: (didYouMeanLit ++ (c ++ ['?']))) = none := by
    rw [hD]
    exact litMatch_ne_head _ _ (by decide)
  have h2 : litMatch didYouMeanLit (' ' :: (didYouMeanLit ++ (c ++ ['?']))) = none := by
    rw [hD]
    exact litMatch_ne_head _ _ (by decide)
  have h3 : litMatch didYouMeanLit (didYouMeanLit ++ (c ++ ['?'])) = some (c ++ ['?']) :=
    litMatch_append _ _
  have h4 : clauseCap (c ++ ['?']) = some c := clauseCap_append hne hq []
  have h5 : didYouMeanLit ++ (c ++ ['?']) = 'D' :: ("id you mean ".data ++ (c ++ ['?'])) := by
    rw [hD]
    rfl
  rw [meanClause_cons, h1]
  simp only [Option.bind, if_neg (by decide : ¬('.' = '\n'))]
  rw [meanClause_cons, h2]
  simp only [Option.bind, if_neg (by decide : ¬(' ' = '\n'))]
  rw [h5, meanClause_cons, ← h5, h3]
  simp [h4]

theorem famMsg_decomp (w q t c : Str) :
    famMsg w q t c =
      w ++ (" field \"".data ++ (q ++ ('"' :: (" on type \"".data ++
        (t ++ ('"' :: '.' :: ' ' :: (didYouMeanLit ++ (c ++ ['?'])))))))) := by
  have eB : "\" on type \"".data = '"' :: " on type \"".data := rfl
  have eC : "\". Did you mean ".data = '"' :: ('.' :: (' ' :: didYouMeanLit)) := rfl
  have eD : "?".data = ['?'] := rfl
  simp [famMsg, eB, eC, eD, List.append_assoc]
  rfl

theorem matchSuggestionAt_fam {w q t c : Str}
    (hw : w = "Cannot query".data ∨ w = "Unknown".data)
    (hq0 : q ≠ []) (hq1 : '"' ∉ q) (ht0 : t ≠ []) (ht1 : '"' ∉ t)
    (hc0 : c ≠ []) (hc1 : '?' ∉ c) :
    matchSuggestionAt (famMsg w q t c) = some (q, t, c) := by
  have hrest : wordingRest (famMsg w q t c) =
      some (" field \"".data ++ (q ++ ('"' :: (" on type \"".data ++
        (t ++ ('"' :: '.' :: ' ' :: (didYouMeanLit ++ (c ++ ['?'])))))))) := by
    rcases hw with hw | hw <;> subst hw
    · rw [famMsg_decomp]
      unfold wordingRest
      rw [litMatch_append]
    · rw [famMsg_decomp]
      unfold wordingRest
      have hno : ∀ R : Str, litMatch "Cannot query".data ("Unknown".data ++ R) = none := by
        intro R
        have e1 : "Cannot query".data = 'C' :: "annot query".data := rfl
        have e2 : "Unknown".data ++ R = 'U' :: ("nknown".data ++ R) := rfl
        rw [e1, e2]
        exact litMatch_ne_head _ _ (by decide)
      rw [hno, litMatch_append]
  have S2 : litMatch " field \"".data
      (" field \"".data ++ (q ++ ('"' :: (" on type \"".data ++
        (t ++ ('"' :: '.' :: ' ' :: (didYouMeanLit ++ (c ++ ['?'])))))))) =
      some (q ++ ('"' :: (" on type \"".data ++
        (t ++ ('"' :: '.' :: ' ' :: (didYouMeanLit ++ (c ++ ['?']))))))) :=
    litMatch_append _ _
  have S3 := quotedCapture_append hq0 hq1
    (" on type \"".data ++ (t ++ ('"' :: '.' :: ' ' :: (didYouMeanLit ++ (c ++ ['?'])))))
  have S4 : litMatch " on type \"".data
      (" on type \"".data ++ (t ++ ('"' :: '.' :: ' ' :: (didYouMeanLit ++ (c ++ ['?']))))) =
      some (t ++ ('"' :: '.' :: ' ' :: (didYouMeanLit ++ (c ++ ['?'])))) :=
    litMatch_append _ _
  have S5 := quotedCapture_append ht0 ht1 ('.' :: ' ' :: (didYouMeanLit ++ (c ++ ['?'])))
  have S6 := meanClause_fam hc0 hc1
  simp only [matchSuggestionAt, hrest, Option.some_bind, S2, S3, S4, S5, S6,
    Option.map_some']

theorem findSuggestion_cons (ch : Char) (r : Str) :
    findSuggestion (ch :: r) =
      match matchSuggestionAt (ch :: r) with
      | some x => some x
      | none => findSuggestion r := by
  rw [findSuggestion]

theorem findSuggestion_fam {w q t c : Str}
    (hw : w = "Cannot query".data ∨ w = "Unknown".data)
    (hq0 : q ≠ []) (hq1 : '"' ∉ q) (ht0 : t ≠ []) (ht1 : '"' ∉ t)
    (hc0 : c ≠ []) (hc1 : '?' ∉ c) :
    findSuggestion (famMsg w q t c) = some (q, t, c) := by
  have hm := matchSuggestionAt_fam hw hq0 hq1 ht0 ht1 hc0 hc1
  rcases hw with hw | hw <;> subst hw
  · have e : famMsg "Cannot query".data q t c =
        'C' :: ("annot query".data ++ (" field \"".data ++ (q ++ ('"' ::
          (" on type \"".data ++ (t ++ ('"' :: '.' :: ' ' ::
            (didYouMeanLit ++ (c ++ ['?']))))))))) := by
      rw [famMsg_decomp]
      rfl
    rw [e] at hm ⊢
    rw [findSuggestion_cons, hm]
  · have e : famMsg "Unknown".data q t c =
        'U' :: ("nknown".data ++ (" field \"".data ++ (q ++ ('"' ::
          (" on type \"".data ++ (t ++ ('"' :: '.' :: ' ' ::
            (didYouMeanLit ++ (c ++ ['?']))))))))) := by
      rw [famMsg_decomp]
      rfl
    rw [e] at hm ⊢
    rw [findSuggestion_cons, hm]

theorem parse_fam_master {w q t c : Str}
    (hw : w = "Cannot query".data ∨ w = "Unknown".data)
    (hq0 : q ≠ []) (hq1 : '"' ∉ q) (ht0 : t ≠ []) (ht1 : '"' ∉ t)
    (hc0 : c ≠ []) (hc1 : '?' ∉ c) :
    (parse_probe_response [⟨famMsg w q t c⟩]).suggestions =
      if ((quotedTokens c).filter (fun s => !(dunder s))) = [] then []
      else [⟨q, (quotedTokens c).filter (fun s => !(dunder s)), some t⟩] := by
  have hf := findSuggestion_fam hw hq0 hq1 ht0 ht1 hc0 hc1
  unfold parse_probe_response parseStep
  simp only [List.foldl, hf]
  by_cases hemp : ((quotedTokens c).filter (fun s => !(dunder s))) = [] <;>
    cases hsub : findSubfield (famMsg w q t c) <;>
    simp [hemp, List.isEmpty_iff, List.isEmpty_eq_false]

/-- C1 (amended): for every message of either recognized suggestion phrasing,
provided at least one quoted token of the clause survives the removal of
double-underscore names, the extractor yields exactly one suggestion fact
whose queried field is the quoted field, whose parent type is the quoted
type, and whose suggestion list is every surviving quoted token of the
clause in message order; in particular the xuser message yields exactly one
fact with queried field xuser, parent Query and suggestions [user, users].
The original claim (the list is every quoted token) fails on clauses with
double-underscore tokens, see the counterexample. -/
theorem C1_suggestion_extraction :
    (∀ w q t c, (w = "Cannot query".data ∨ w = "Unknown".data) →
      q ≠ [] → '"' ∉ q → t ≠ [] → '"' ∉ t → c ≠ [] → '?' ∉ c →
      ((quotedTokens c).filter (fun s => !(dunder s))) ≠ [] →
      (parse_probe_response [⟨famMsg w q t c⟩]).suggestions =
        [⟨q, (quotedTokens c).filter (fun s => !(dunder s)), some t⟩]) ∧
    parse_probe_response
      [⟨"Cannot query field \"xuser\" on type \"Query\". Did you mean \"user\" or \"users\"?".data⟩] =
      ⟨[⟨"xuser".data, ["user".data, "users".data], some "Query".data⟩], []⟩ := by
  constructor
  · intro w q t c hw hq0 hq1 ht0 ht1 hc0 hc1 hne
    rw [parse_fam_master hw hq0 hq1 ht0 ht1 hc0 hc1, if_neg hne]
  · decide

/-- C1 counterexample: on the verbose-phrasing message whose clause quotes
only the introspection name, the quoted tokens of the clause are nonempty,
yet the extractor emits no suggestion fact at all — contradicting the claim
that the fact's list is every quoted token of the clause. -/
theorem C1_cex :
    (parse_probe_response
      [⟨"Cannot query field \"xtype\" on type \"Query\". Did you mean \"__type\"?".data⟩]).suggestions
      = [] ∧
    quotedTokens "\"__type\"".data = ["__type".data] := by
  decide

/-- C1 witness. -/
theorem C1_witness :
    ((quotedTokens "\"user\" or \"users\"".data).filter (fun s => !(dunder s))) ≠ [] ∧
    (parse_probe_response [⟨famMsg "Cannot query".data "xuser".data "Query".data
        "\"user\" or \"users\"".data⟩]).suggestions =
      [⟨"xuser".data,
        (quotedTokens "\"user\" or \"users\"".data).filter (fun s => !(dunder s)),
        some "Query".data⟩] :=
  ⟨by decide,
   C1_suggestion_extraction.1 "Cannot query".data "xuser".data "Query".data
     "\"user\" or \"users\"".data (Or.inl rfl) (by decide) (by decide) (by decide)
     (by decide) (by decide) (by decide) (by decide)⟩

/-- C2: on every message of the recognized suggestion shape, each emitted
fact's suggestion list is the clause's quoted tokens with every
double-underscore name removed (so no emitted suggestion is an introspection
name), and when that removal leaves nothing, no suggestion fact is emitted
for the message at all. -/
theorem C2_dunder_filter :
    ∀ w q t c, (w = "Cannot query".data ∨ w = "Unknown".data) →
      q ≠ [] → '"' ∉ q → t ≠ [] → '"' ∉ t → c ≠ [] → '?' ∉ c →
      ((∀ fact ∈ (parse_probe_response [⟨famMsg w q t c⟩]).suggestions,
          fact.suggestions = (quotedTokens c).filter (fun s => !(dunder s)) ∧
          ∀ n ∈ fact.suggestions, dunder n = false) ∧
       (((quotedTokens c).filter (fun s => !(dunder s))) = [] →
          (parse_probe_response [⟨famMsg w q t c⟩]).suggestions = [])) := by
  intro w q t c hw hq0 hq1 ht0 ht1 hc0 hc1
  have hm := parse_fam_master hw hq0 hq1 ht0 ht1 hc0 hc1
  constructor
  · intro fact hfact
    rw [hm] at hfact
    by_cases hemp : ((quotedTokens c).filter (fun s => !(dunder s))) = []
    · rw [if_pos hemp] at hfact
      simp at hfact
    · rw [if_neg hemp] at hfact
      have hfe : fact = ⟨q, (quotedTokens c).filter (fun s => !(dunder s)), some t⟩ := by
        simpa using hfact
      subst hfe
      refine ⟨rfl, ?_⟩
      intro n hn
      have := (List.mem_filter.mp hn).2
      simpa using this
  · intro hemp
    rw [hm, if_pos hemp]

/-- C2 witness. -/
theorem C2_witness :
    ((quotedTokens "\"__type\"".data).filter (fun s => !(dunder s))) = [] ∧
    (parse_probe_response [⟨famMsg "Unknown".data "xtype".data "QueryRoot".data
        "\"__type\"".data⟩]).suggestions = [] :=
  ⟨by decide,
   (C2_dunder_filter "Unknown".data "xtype".data "QueryRoot".data "\"__type\"".data
     (Or.inr rfl) (by decide) (by decide) (by decide) (by decide) (by decide)
     (by decide)).2 (by decide)⟩

theorem litMatch_subset {l s r : Str} (h : litMatch l s = some r) : ∀ x ∈ r, x ∈ s := by
  intro x hx
  rw [litMatch_some_eq h]
  exact List.mem_append_right _ hx

theorem capUntil_subset {stop : Char} {s cap rest : Str}
    (h : capUntil stop s = some (cap, rest)) : ∀ x ∈ rest, x ∈ s := by
  intro x hx
  rw [capUntil_some_eq h]
  exact List.mem_append_right _ (List.mem_cons_of_mem _ hx)

theorem quotedCapture_subset {s cap rest : Str}
    (h : quotedCapture s = some (cap, rest)) : ∀ x ∈ rest, x ∈ s := by
  unfold quotedCapture at h
  cases hc : capUntil '"' s with
  | none => rw [hc] at h; cases h
  | some pr =>
    rw [hc] at h
    cases pr with
    | mk c2 r2 =>
      by_cases he : c2 = []
      · simp [he] at h
      · simp [he] at h
        obtain ⟨h1, h2⟩ := h
        subst h2
        exact capUntil_subset hc

theorem clauseCap_some_qmark {s : Str} {c : Str} (h : clauseCap s = some c) : '?' ∈ s := by
  unfold clauseCap at h
  cases hc : capUntil '?' s with
  | none => rw [hc] at h; cases h
  | some pr =>
    cases pr with
    | mk c2 r2 =>
      rw [capUntil_some_eq hc]
      exact List.mem_append_right _ (List.mem_cons_self _ _)

theorem meanClause_some_qmark {s : Str} {c : Str} (h : meanClause s = some c) : '?' ∈ s := by
  induction s with
  | nil => simp [meanClause] at h
  | cons ch r ih =>
    rw [meanClause_cons] at h
    cases hb : (litMatch didYouMeanLit (ch :: r)).bind clauseCap with
    | some c2 =>
      cases hl : litMatch didYouMeanLit (ch :: r) with
      | none => rw [hl] at hb; simp at hb
      | some r2 =>
        rw [hl] at hb
        simp only [Option.bind] at hb
        have h1 : '?' ∈ r2 := clauseCap_some_qmark hb
        exact litMatch_subset hl _ h1
    | none =>
      rw [hb] at h
      by_cases hnl : ch = '\n'
      · rw [if_pos hnl] at h; cases h
      · rw [if_neg hnl] at h
        exact List.mem_cons_of_mem _ (ih h)

theorem wordingRest_subset {s s1 : Str} (h : wordingRest s = some s1) : ∀ x ∈ s1, x ∈ s := by
  unfold wordingRest at h
  cases h1 : litMatch "Cannot query".data s with
  | some r =>
    rw [h1] at h
    simp at h
    subst h
    exact litMatch_subset h1
  | none =>
    rw [h1] at h
    simp at h
    exact litMatch_subset h

theorem matchSuggestionAt_qmark {s : Str} {x : Str × Str × Str}
    (h : matchSuggestionAt s = some x) : '?' ∈ s := by
  unfold matchSuggestionAt at h
  obtain ⟨s1, hw, h⟩ := Option.bind_eq_some.mp h
  obtain ⟨s2, h2, h⟩ := Option.bind_eq_some.mp h
  obtain ⟨⟨q, s3⟩, h3, h⟩ := Option.bind_eq_some.mp h
  obtain ⟨s4, h4, h⟩ := Option.bind_eq_some.mp h
  obtain ⟨⟨t, s5⟩, h5, h⟩ := Option.bind_eq_some.mp h
  obtain ⟨c, h6, _⟩ := Option.map_eq_some'.mp h
  exact wordingRest_subset hw _ (litMatch_subset h2 _ (quotedCapture_subset h3 _
    (litMatch_subset h4 _ (quotedCapture_subset h5 _ (meanClause_some_qmark h6)))))

theorem findSuggestion_qmark {s : Str} {x : Str × Str × Str}
    (h : findSuggestion s = some x) : '?' ∈ s := by
  induction s with
  | nil => simp [findSuggestion] at h
  | cons ch r ih =>
    rw [findSuggestion_cons] at h
    cases hm : matchSuggestionAt (ch :: r) with
    | some y => exact matchSuggestionAt_qmark hm
    | none =>
      rw [hm] at h
      exact List.mem_cons_of_mem _ (ih h)

theorem findSuggestion_none_of_no_qmark {s : Str} (h : '?' ∉ s) :
    findSuggestion s = none := by
  cases hf : findSuggestion s with
  | none => rfl
  | some x => exact absurd (findSuggestion_qmark hf) h

theorem subfieldMsg_decomp (lead : Char) (f t : Str) :
    subfieldMsg lead f t =
      lead :: ("ield \"".data ++ (f ++ ('"' :: (" of type \"".data ++
        (t ++ ('"' :: " must have a selection of subfields".data)))))) := by
  have eB : "\" of type \"".data = '"' :: " of type \"".data := rfl
  have eC : "\" must have a selection of subfields".data =
      '"' :: " must have a selection of subfields".data := rfl
  simp [subfieldMsg, eB, eC, List.append_assoc]

theorem matchSubfieldAt_cons (ch : Char) (r : Str) :
    matchSubfieldAt (ch :: r) =
      if ch = 'F' ∨ ch = 'f' then
        (litMatch "ield \"".data r).bind fun s2 =>
        (quotedCapture s2).bind fun p2 =>
        (litMatch " of type \"".data p2.2).bind fun s4 =>
        (quotedCapture s4).bind fun p4 =>
        if scanLit "must have a selection of subfields".data p4.2 then some (p2.1, p4.1)
        else none
      else none := by
  rw [matchSubfieldAt]

theorem matchSubfieldAt_fam {lead : Char} {f t : Str} (hl : lead = 'F' ∨ lead = 'f')
    (hf0 : f ≠ []) (hf1 : '"' ∉ f) (ht0 : t ≠ []) (ht1 : '"' ∉ t) :
    matchSubfieldAt (subfieldMsg lead f t) = some (f, t) := by
  rw [subfieldMsg_decomp, matchSubfieldAt_cons, if_pos hl]
  have S2 : litMatch "ield \"".data
      ("ield \"".data ++ (f ++ ('"' :: (" of type \"".data ++
        (t ++ ('"' :: " must have a selection of subfields".data)))))) =
      some (f ++ ('"' :: (" of type \"".data ++
        (t ++ ('"' :: " must have a selection of subfields".data))))) :=
    litMatch_append _ _
  have S3 := quotedCapture_append hf0 hf1
    (" of type \"".data ++ (t ++ ('"' :: " must have a selection of subfields".data)))
  have S4 : litMatch " of type \"".data
      (" of type \"".data ++ (t ++ ('"' :: " must have a selection of subfields".data))) =
      some (t ++ ('"' :: " must have a selection of subfields".data)) :=
    litMatch_append _ _
  have S5 := quotedCapture_append ht0 ht1 " must have a selection of subfields".data
  have S6 : scanLit "must have a selection of subfields".data
      " must have a selection of subfields".data = true := by decide
  simp only [S2, Option.some_bind, S3, S4, S5, S6, if_pos]

theorem findSubfield_cons (ch : Char) (r : Str) :
    findSubfield (ch :: r) =
      match matchSubfieldAt (ch :: r) with
      | some x => some x
      | none => findSubfield r := by
  rw [findSubfield]

theorem findSubfield_fam {lead : Char} {f t : Str} (hl : lead = 'F' ∨ lead = 'f')
    (hf0 : f ≠ []) (hf1 : '"' ∉ f) (ht0 : t ≠ []) (ht1 : '"' ∉ t) :
    findSubfield (subfieldMsg lead f t) = some (f, t) := by
  have hm := matchSubfieldAt_fam hl hf0 hf1 ht0 ht1
  rw [subfieldMsg_decomp] at hm ⊢
  rw [findSubfield_cons, hm]

theorem subfieldMsg_no_qmark {lead : Char} {f t : Str} (hl : lead = 'F' ∨ lead = 'f')
    (hf : '?' ∉ f) (ht : '?' ∉ t) : '?' ∉ subfieldMsg lead f t := by
  rw [subfieldMsg_decomp]
  intro hmem
  rcases List.mem_cons.mp hmem with h | h
  · rcases hl with hl | hl <;> subst hl <;> exact absurd h (by decide)
  · rcases List.mem_append.mp h with h | h
    · exact absurd h (by decide)
    · rcases List.mem_append.mp h with h | h
      · exact hf h
      · rcases List.mem_cons.mp h with h | h
        · exact absurd h (by decide)
        · rcases List.mem_append.mp h with h | h
          · exact absurd h (by decide)
          · rcases List.mem_append.mp h with h | h
            · exact ht h
            · rcases List.mem_cons.mp h with h | h
              · exact absurd h (by decide)
              · exact absurd h (by decide)

/-- C10: for every message of the subfield-selection shape with either case of
the leading word, the extractor yields exactly one object-type hint carrying
the quoted field and quoted type, and zero suggestion facts. -/
theorem C10_subfield_hint :
    ∀ (lead : Char) (f t : Str), (lead = 'F' ∨ lead = 'f') →
      f ≠ [] → '"' ∉ f → '?' ∉ f → t ≠ [] → '"' ∉ t → '?' ∉ t →
      parse_probe_response [⟨subfieldMsg lead f t⟩] = ⟨[], [⟨f, t⟩]⟩ := by
  intro lead f t hl hf0 hf1 hf2 ht0 ht1 ht2
  have hs : findSuggestion (subfieldMsg lead f t) = none :=
    findSuggestion_none_of_no_qmark (subfieldMsg_no_qmark hl hf2 ht2)
  have hb : findSubfield (subfieldMsg lead f t) = some (f, t) :=
    findSubfield_fam hl hf0 hf1 ht0 ht1
  unfold parse_probe_response parseStep
  simp [hs, hb]

/-- C10 witness. -/
theorem C10_witness :
    parse_probe_response [⟨subfieldMsg 'F' "user".data "User".data⟩] =
      ⟨[], [⟨"user".data, "User".data⟩]⟩ :=
  C10_subfield_hint 'F' "user".data "User".data (Or.inl rfl) (by decide) (by decide)
    (by decide) (by decide) (by decide) (by decide)

/-! Lemmas about the probe corpus (`src/wordlist.rs`). -/

theorem seenOf_eq (acc : List Str × List Str) : seenOf acc = acc.1 := by
  cases acc
  rfl

theorem probesOf_eq (acc : List Str × List Str) : probesOf acc = acc.2 := by
  cases acc
  rfl

theorem foldProbe_inv (ms : List Str) (acc : List Str × List Str)
    (hinv : ∀ x, x ∈ acc.1 ↔ x ∈ acc.2) :
    (∀ x, x ∈ (ms.foldl probeStep acc).1 ↔ x ∈ (ms.foldl probeStep acc).2) ∧
    (∀ x ∈ acc.2, x ∈ (ms.foldl probeStep acc).2) ∧
    (∀ x ∈ ms, x ∈ (ms.foldl probeStep acc).2) ∧
    (∀ x ∈ (ms.foldl probeStep acc).2, x ∈ acc.2 ∨ x ∈ ms) := by
  induction ms generalizing acc with
  | nil =>
    refine ⟨hinv, fun x h => h, by simp, fun x h => Or.inl h⟩
  | cons m rest ih =>
    simp only [List.foldl_cons]
    by_cases hm : m ∈ acc.1
    · have hstep : probeStep acc m = acc := by simp [probeStep, hm]
      rw [hstep]
      obtain ⟨i1, i2, i3, i4⟩ := ih acc hinv
      refine ⟨i1, i2, ?_, ?_⟩
      · intro x hx
        rcases List.mem_cons.mp hx with hx | hx
        · rw [hx]
          exact i2 _ ((hinv m).mp hm)
        · exact i3 _ hx
      · intro x hx
        rcases i4 x hx with hx | hx
        · exact Or.inl hx
        · exact Or.inr (List.mem_cons_of_mem _ hx)
    · have hstep : probeStep acc m = (m :: acc.1, acc.2 ++ [m]) := by
        simp [probeStep, hm]
      rw [hstep]
      have hinv2 : ∀ x, x ∈ (m :: acc.1, acc.2 ++ [m]).1 ↔ x ∈ (m :: acc.1, acc.2 ++ [m]).2 := by
        intro x
        simp [hinv x]
        tauto
      obtain ⟨i1, i2, i3, i4⟩ := ih _ hinv2
      refine ⟨i1, ?_, ?_, ?_⟩
      · intro x hx
        exact i2 _ (by simp [hx])
      · intro x hx
        rcases List.mem_cons.mp hx with hx | hx
        · rw [hx]
          exact i2 _ (by simp)
        · exact i3 _ hx
      · intro x hx
        rcases i4 x hx with hx | hx
        · rcases List.mem_append.mp hx with hx | hx
          · exact Or.inl hx
          · simp at hx
            exact Or.inr (by simp [hx])
        · exact Or.inr (List.mem_cons_of_mem _ hx)

theorem wordFold_nil (acc : List Str × List Str) : wordFold [] acc = acc := rfl

theorem wordFold_cons (w : Str) (rest : List Str) (acc : List Str × List Str) :
    wordFold (w :: rest) acc = wordFold rest ((generate_mutations w).foldl probeStep acc) :=
  rfl

theorem wordFold_inv (ws : List Str) (acc : List Str × List Str)
    (hinv : ∀ x, x ∈ acc.1 ↔ x ∈ acc.2) :
    (∀ x, x ∈ seenOf (wordFold ws acc) ↔ x ∈ probesOf (wordFold ws acc)) ∧
    (∀ x ∈ acc.2, x ∈ probesOf (wordFold ws acc)) ∧
    (∀ w ∈ ws, ∀ m ∈ generate_mutations w, m ∈ probesOf (wordFold ws acc)) ∧
    (∀ x ∈ probesOf (wordFold ws acc), x ∈ acc.2 ∨ ∃ w ∈ ws, x ∈ generate_mutations w) := by
  induction ws generalizing acc with
  | nil =>
    rw [wordFold_nil, seenOf_eq, probesOf_eq]
    refine ⟨hinv, fun x h => h, by simp, fun x h => Or.inl h⟩
  | cons w rest ih =>
    rw [wordFold_cons]
    obtain ⟨p1, p2, p3, p4⟩ := foldProbe_inv (generate_mutations w) acc hinv
    obtain ⟨i1, i2, i3, i4⟩ := ih _ p1
    refine ⟨i1, ?_, ?_, ?_⟩
    · intro x hx
      exact i2 _ (p2 _ hx)
    · intro v hv m hm
      rcases List.mem_cons.mp hv with hv | hv
      · exact i2 _ (p3 _ (hv ▸ hm))
      · exact i3 _ hv _ hm
    · intro x hx
      rcases i4 x hx with hx | hx
      · rcases p4 x hx with hx | hx
        · exact Or.inl hx
        · exact Or.inr ⟨w, List.mem_cons_self _ _, hx⟩
      · obtain ⟨w2, hw2, hm2⟩ := hx
        exact Or.inr ⟨w2, List.mem_cons_of_mem _ hw2, hm2⟩

theorem mem_full_probe_list {w m : Str} (hw : w ∈ BASE_WORDS)
    (hm : m ∈ generate_mutations w) : m ∈ full_probe_list := by
  unfold full_probe_list
  exact (wordFold_inv BASE_WORDS ([], []) (by simp)).2.2.1 w hw m hm

theorem full_probe_list_from_mutation {x : Str} (hx : x ∈ full_probe_list) :
    ∃ w ∈ BASE_WORDS, x ∈ generate_mutations w := by
  unfold full_probe_list at hx
  rcases (wordFold_inv BASE_WORDS ([], []) (by simp)).2.2.2 x hx with h | h
  · simp at h
  · exact h

set_option maxRecDepth 8000 in
/-- C7 counterexample: the claim lists usre as the swap-first-two-characters
variant of user, but swapping the first two characters of user yields suer;
usre is not a mutation of any base word, so it is absent from the corpus. -/
theorem C7_cex : "usre".data ∉ full_probe_list := by
  intro h
  obtain ⟨w, hw, hm⟩ := full_probe_list_from_mutation h
  have hall : ∀ v ∈ BASE_WORDS, "usre".data ∉ generate_mutations v := by decide
  exact hall w hw hm

/-- C7 (amended): for base word user, the probe list includes xuser, use
(drop-last), suer (the swap-first-two-characters variant), users, userId,
userBy, userList and User.  The original claim named usre as the swapped
variant; the swap of the first two characters of user is suer. -/
theorem C7_probe_corpus :
    "xuser".data ∈ full_probe_list ∧ "use".data ∈ full_probe_list ∧
    "suer".data ∈ full_probe_list ∧ "users".data ∈ full_probe_list ∧
    "userId".data ∈ full_probe_list ∧ "userBy".data ∈ full_probe_list ∧
    "userList".data ∈ full_probe_list ∧ "User".data ∈ full_probe_list := by
  have hw : "user".data ∈ BASE_WORDS := by decide
  refine ⟨?_, ?_, ?_, ?_, ?_, ?_, ?_, ?_⟩ <;>
    exact mem_full_probe_list hw (by decide)

/-! Lemmas about the schema model (`src/schema.rs`). -/

theorem lookupKey_insertKey_self {α : Type} (m : List (Str × α)) (k : Str) (v : α) :
    lookupKey (insertKey m k v) k = some v := by
  induction m with
  | nil => simp [insertKey, lookupKey]
  | cons kv rest ih =>
    cases kv with
    | mk k' v' =>
      by_cases hlt : keyLt k k' = true
      · simp [insertKey, hlt, lookupKey]
      · by_cases heq : k = k'
        · subst heq
          simp [insertKey, hlt, lookupKey]
        · simp [insertKey, hlt, heq, lookupKey, ih]

theorem lookupKey_insertKey_ne {α : Type} (m : List (Str × α)) {k k2 : Str} (v : α)
    (h : k2 ≠ k) : lookupKey (insertKey m k v) k2 = lookupKey m k2 := by
  induction m with
  | nil => simp [insertKey, lookupKey, h]
  | cons kv rest ih =>
    cases kv with
    | mk k' v' =>
      by_cases hlt : keyLt k k' = true
      · simp [insertKey, hlt, lookupKey, h]
      · by_cases heq : k = k'
        · subst heq
          simp [insertKey, hlt, lookupKey, h]
        · by_cases h2 : k2 = k'
          · simp [insertKey, hlt, heq, lookupKey, h2]
          · simp [insertKey, hlt, heq, lookupKey, h2, ih]

theorem fieldInfoOf_present_add {s : ReconstructedSchema} {typeName fieldName : Str}
    (h : (fieldInfoOf s typeName fieldName).isSome) :
    s.add_field typeName fieldName = (false, s) := by
  unfold fieldInfoOf at h
  cases ht : lookupKey s.types typeName with
  | none => rw [ht] at h; simp at h
  | some ty =>
    rw [ht] at h
    simp only [Option.some_bind] at h
    simp [ReconstructedSchema.add_field, ht, h]

theorem fieldInfoOf_absent_add {s : ReconstructedSchema} {typeName fieldName : Str}
    (h : fieldInfoOf s typeName fieldName = none) :
    (s.add_field typeName fieldName).1 = true ∧
    fieldInfoOf (s.add_field typeName fieldName).2 typeName fieldName =
      some ⟨fieldName, none, isListName fieldName⟩ := by
  unfold fieldInfoOf at h
  cases ht : lookupKey s.types typeName with
  | none =>
    simp [ReconstructedSchema.add_field, ht, fieldInfoOf,
      lookupKey_insertKey_self, insertKey, lookupKey]
  | some ty =>
    rw [ht] at h
    simp only [Option.some_bind] at h
    simp [ReconstructedSchema.add_field, ht, h, fieldInfoOf,
      lookupKey_insertKey_self]

theorem fieldInfoOf_applyOp_present {s : ReconstructedSchema} {typeName fieldName : Str}
    (op : ModelOp) (h : (fieldInfoOf s typeName fieldName).isSome) :
    (fieldInfoOf (applyOp s op) typeName fieldName).isSome := by
  unfold fieldInfoOf at h
  cases ht : lookupKey s.types typeName with
  | none => rw [ht] at h; simp at h
  | some ty =>
    rw [ht] at h
    simp only [Option.some_bind] at h
    cases op with
    | addF t2 f2 =>
      cases ht2 : lookupKey s.types t2 with
      | none =>
        by_cases he : typeName = t2
        · subst he
          rw [ht] at ht2
          cases ht2
        · simp [applyOp, ReconstructedSchema.add_field, ht2, fieldInfoOf,
            lookupKey_insertKey_ne _ _ he, ht, h]
      | some ty2 =>
        by_cases hf2 : (lookupKey ty2.fields f2).isSome
        · simp [applyOp, ReconstructedSchema.add_field, ht2, hf2, fieldInfoOf, ht, h]
        · by_cases he : typeName = t2
          · subst he
            rw [ht] at ht2
            injection ht2 with ht2
            subst ht2
            by_cases hfe : fieldName = f2
            · subst hfe
              exact absurd h hf2
            · simp [applyOp, ReconstructedSchema.add_field, ht, hf2, fieldInfoOf,
                lookupKey_insertKey_self, lookupKey_insertKey_ne _ _ hfe, h]
          · simp [applyOp, ReconstructedSchema.add_field, ht2, hf2, fieldInfoOf,
              lookupKey_insertKey_ne _ _ he, ht, h]
    | setT p2 f2 nt =>
      cases ht2 : lookupKey s.types p2 with
      | none => simp [applyOp, ReconstructedSchema.set_field_type, ht2, fieldInfoOf, ht, h]
      | some ty2 =>
        cases hf2 : lookupKey ty2.fields f2 with
        | none => simp [applyOp, ReconstructedSchema.set_field_type, ht2, hf2, fieldInfoOf, ht, h]
        | some fi2 =>
          by_cases he : typeName = p2
          · subst he
            rw [ht] at ht2
            injection ht2 with ht2
            subst ht2
            by_cases hfe : fieldName = f2
            · subst hfe
              simp [applyOp, ReconstructedSchema.set_field_type, ht, hf2, fieldInfoOf,
                lookupKey_insertKey_self]
            · simp [applyOp, ReconstructedSchema.set_field_type, ht, hf2, fieldInfoOf,
                lookupKey_insertKey_self, lookupKey_insertKey_ne _ _ hfe, h]
          · simp [applyOp, ReconstructedSchema.set_field_type, ht2, hf2, fieldInfoOf,
              lookupKey_insertKey_ne _ _ he, ht, h]
    | logD p2 pf d =>
      simp [applyOp, ReconstructedSchema.log_discovery, fieldInfoOf, ht, h]

theorem fieldInfoOf_applyOp_absent {s : ReconstructedSchema} {typeName fieldName : Str}
    {op : ModelOp} (hop : op ≠ ModelOp.addF typeName fieldName)
    (h : fieldInfoOf s typeName fieldName = none) :
    fieldInfoOf (applyOp s op) typeName fieldName = none := by
  cases op with
  | addF t2 f2 =>
    cases ht2 : lookupKey s.types t2 with
    | none =>
      by_cases he : typeName = t2
      · subst he
        have hfe : fieldName ≠ f2 := by
          intro hc
          exact hop (by rw [hc])
        simp [applyOp, ReconstructedSchema.add_field, ht2, fieldInfoOf,
          lookupKey_insertKey_self, insertKey, lookupKey, hfe]
      · unfold fieldInfoOf at h ⊢
        simp only [applyOp, ReconstructedSchema.add_field, ht2]
        rw [lookupKey_insertKey_ne _ _ he]
        exact h
    | some ty2 =>
      by_cases hf2 : (lookupKey ty2.fields f2).isSome
      · simp [applyOp, ReconstructedSchema.add_field, ht2, hf2]
        exact h
      · by_cases he : typeName = t2
        · subst he
          unfold fieldInfoOf at h ⊢
          rw [ht2] at h
          simp only [Option.some_bind] at h
          have hfe : fieldName ≠ f2 := by
            intro hc
            exact hop (by rw [hc])
          simp [applyOp, ReconstructedSchema.add_field, ht2, hf2,
            lookupKey_insertKey_self, lookupKey_insertKey_ne _ _ hfe, h]
        · unfold fieldInfoOf at h ⊢
          simp only [applyOp, ReconstructedSchema.add_field, ht2, hf2,
            Bool.false_eq_true, if_false]
          rw [lookupKey_insertKey_ne _ _ he]
          exact h
  | setT p2 f2 nt =>
    cases ht2 : lookupKey s.types p2 with
    | none =>
      simp only [applyOp, ReconstructedSchema.set_field_type, ht2]
      exact h
    | some ty2 =>
      cases hf2 : lookupKey ty2.fields f2 with
      | none =>
        simp only [applyOp, ReconstructedSchema.set_field_type, ht2, hf2]
        exact h
      | some fi2 =>
        by_cases he : typeName = p2
        · subst he
          unfold fieldInfoOf at h ⊢
          rw [ht2] at h
          simp only [Option.some_bind] at h
          have hfe : fieldName ≠ f2 := by
            intro hc
            subst hc
            rw [h] at hf2
            cases hf2
          simp [applyOp, ReconstructedSchema.set_field_type, ht2, hf2,
            lookupKey_insertKey_self, lookupKey_insertKey_ne _ _ hfe, h]
        · unfold fieldInfoOf at h ⊢
          simp only [applyOp, ReconstructedSchema.set_field_type, ht2, hf2]
          rw [lookupKey_insertKey_ne _ _ he]
          exact h
  | logD p2 pf d =>
    simpa [applyOp, ReconstructedSchema.log_discovery, fieldInfoOf] using h

theorem fieldInfoOf_applyOps_present {typeName fieldName : Str}
    (ops : List ModelOp) (s : ReconstructedSchema)
    (h : (fieldInfoOf s typeName fieldName).isSome) :
    (fieldInfoOf (applyOps s ops) typeName fieldName).isSome := by
  induction ops generalizing s with
  | nil => exact h
  | cons op rest ih =>
    exact ih _ (fieldInfoOf_applyOp_present op h)

theorem fieldInfoOf_applyOps_absent {typeName fieldName : Str}
    (ops : List ModelOp) (s : ReconstructedSchema)
    (hops : ModelOp.addF typeName fieldName ∉ ops)
    (h : fieldInfoOf s typeName fieldName = none) :
    fieldInfoOf (applyOps s ops) typeName fieldName = none := by
  induction ops generalizing s with
  | nil => exact h
  | cons op rest ih =>
    have h1 : op ≠ ModelOp.addF typeName fieldName := by
      intro hc
      exact hops (by rw [hc]; exact List.mem_cons_self _ _)
    have h2 : ModelOp.addF typeName fieldName ∉ rest := by
      intro hc
      exact hops (List.mem_cons_of_mem _ hc)
    exact ih _ h2 (fieldInfoOf_applyOp_absent h1 h)

/-- C6: for every distinct pair (T, f), starting from the empty model, after
any sequence of operations not containing add_field(T, f) the first
add_field(T, f) returns true and stores the field with no type set; and from
any state where (T, f) is present, after any further sequence of operations
(including more adds and interleaved set_field_type calls) add_field(T, f)
returns false and leaves the model unchanged. -/
theorem C6_add_field_once :
    ∀ T f : Str,
      (∀ ops : List ModelOp, ModelOp.addF T f ∉ ops →
        ((applyOps emptySchema ops).add_field T f).1 = true ∧
        fieldInfoOf ((applyOps emptySchema ops).add_field T f).2 T f =
          some ⟨f, none, isListName f⟩) ∧
      (∀ s : ReconstructedSchema, (fieldInfoOf s T f).isSome = true →
        ∀ ops : List ModelOp,
          (applyOps s ops).add_field T f = (false, applyOps s ops)) := by
  intro T f
  constructor
  · intro ops hops
    have h0 : fieldInfoOf emptySchema T f = none := rfl
    exact fieldInfoOf_absent_add (fieldInfoOf_applyOps_absent ops emptySchema hops h0)
  · intro s hs ops
    exact fieldInfoOf_present_add (fieldInfoOf_applyOps_present ops s hs)

/-- C6 witness. -/
theorem C6_witness :
    (ModelOp.addF "Query".data "user".data ∉
      [ModelOp.setT "Query".data "user".data "User".data]) ∧
    ((applyOps emptySchema [ModelOp.setT "Query".data "user".data "User".data]).add_field
      "Query".data "user".data).1 = true ∧
    (fieldInfoOf (emptySchema.add_field "Query".data "user".data).2 "Query".data
      "user".data).isSome = true ∧
    (applyOps (emptySchema.add_field "Query".data "user".data).2
        [ModelOp.addF "Query".data "user".data,
         ModelOp.setT "Query".data "user".data "User".data]).add_field
      "Query".data "user".data =
      (false, applyOps (emptySchema.add_field "Query".data "user".data).2
        [ModelOp.addF "Query".data "user".data,
         ModelOp.setT "Query".data "user".data "User".data]) :=
  ⟨by decide,
   ((C6_add_field_once "Query".data "user".data).1 _ (by decide)).1,
   by decide,
   (C6_add_field_once "Query".data "user".data).2 _ (by decide) _⟩

/-- C9: add_field fixes is_list at creation by the naming rule: the name ends
in s, does not end in ss, and is not in the fixed exclusion set of
known-singular s-ending words; in particular a freshly added users field is
list-shaped while status and address are not, despite ending in s. -/
theorem C9_is_list_rule :
    (∀ f : Str, isListName f =
      ("s".data.isSuffixOf f && !("ss".data.isSuffixOf f) &&
       !(decide (f = ("address" : String).data) || decide (f = "status".data) ||
         decide (f = "success".data)))) ∧
    (∀ s : ReconstructedSchema, ∀ T f : Str, fieldInfoOf s T f = none →
      (fieldInfoOf (s.add_field T f).2 T f).map FieldInfo.is_list =
        some (isListName f)) ∧
    (fieldInfoOf (emptySchema.add_field "Query".data "users".data).2 "Query".data
      "users".data).map FieldInfo.is_list = some true ∧
    (fieldInfoOf (emptySchema.add_field "Query".data "status".data).2 "Query".data
      "status".data).map FieldInfo.is_list = some false ∧
    (fieldInfoOf (emptySchema.add_field "Query".data "address".data).2 "Query".data
      "address".data).map FieldInfo.is_list = some false := by
  refine ⟨?_, ?_, by decide, by decide, by decide⟩
  · intro f
    simp [isListName, Bool.not_or, Bool.and_assoc]
  · intro s T f h
    rw [(fieldInfoOf_absent_add h).2]
    rfl

/-- C9 witness. -/
theorem C9_witness :
    fieldInfoOf emptySchema "Query".data "users".data = none ∧
    (fieldInfoOf (emptySchema.add_field "Query".data "users".data).2 "Query".data
      "users".data).map FieldInfo.is_list = some (isListName "users".data) :=
  ⟨rfl, (C9_is_list_rule.2.1 emptySchema "Query".data "users".data rfl)⟩

/-! Rendering claims (`src/schema.rs`, `to_sdl`). -/

/-- C8 counterexample: a field whose type was never set renders the inferred
scalar name with no list brackets even when is_list is true: the freshly
added users field is list-shaped, yet the rendered definition text shows
"users: String" and no "users: [" — contradicting the claim that every
is_list field renders as name: [Type]. -/
theorem C8_cex :
    (fieldInfoOf (emptySchema.add_field "Query".data "users".data).2 "Query".data
      "users".data).map FieldInfo.is_list = some true ∧
    containsSub "  users: String\n".data
      ((emptySchema.add_field "Query".data "users".data).2.to_sdl) = true ∧
    containsSub "  users: [".data
      ((emptySchema.add_field "Query".data "users".data).2.to_sdl) = false := by
  decide

/-- C8 (amended): a field with a set type renders as name: [Type] when
is_list and as name: Type otherwise; a field whose type was never set always
renders the scalar name inferred from the field's own name, without list
brackets; each field's rendered line is built from exactly that type text.
The concrete conjuncts ground the rule in the rendered definition text. -/
theorem C8_render_types :
    (∀ fi : FieldInfo, ∀ t : Str,
      (fi.type_name = some t →
        fieldTypeStr fi = if fi.is_list then "[".data ++ t ++ "]".data else t) ∧
      (fi.type_name = none → fieldTypeStr fi = infer_scalar_type fi.name) ∧
      renderField fi = "  ".data ++ fi.name ++ ": ".data ++ fieldTypeStr fi ++ "\n".data) ∧
    containsSub "  users: [User]\n".data
      (((emptySchema.add_field "Query".data "users".data).2.set_field_type
        "Query".data "users".data "User".data).to_sdl) = true ∧
    containsSub "  name: String\n".data
      ((emptySchema.add_field "User".data "name".data).2.to_sdl) = true := by
  refine ⟨?_, by decide, by decide⟩
  intro fi t
  refine ⟨?_, ?_, rfl⟩
  · intro h
    simp [fieldTypeStr, h]
  · intro h
    simp [fieldTypeStr, h]

/-- C8 witness. -/
theorem C8_witness :
    (⟨"users".data, some "User".data, true⟩ : FieldInfo).type_name = some "User".data ∧
    fieldTypeStr ⟨"users".data, some "User".data, true⟩ =
      (if (⟨"users".data, some "User".data, true⟩ : FieldInfo).is_list
       then "[".data ++ "User".data ++ "]".data else "User".data) :=
  ⟨rfl, (C8_render_types.1 ⟨"users".data, some "User".data, true⟩ "User".data).1 rfl⟩

/-! Query synthesis claims (`src/walker.rs`). -/

theorem countChar_append (c : Char) (l r : Str) :
    countChar c (l ++ r) = countChar c l + countChar c r := by
  simp [countChar, List.count_append]

theorem countChar_repeatStr (n : Nat) (l : Str) (c : Char) :
    countChar c (repeatStr n l) = n * countChar c l := by
  induction n with
  | zero => simp [repeatStr, countChar]
  | succ k ih =>
    simp [repeatStr, countChar_append, ih, Nat.succ_mul]
    omega

/-- C4: context-formation keeps queries balanced.  Root contexts built from a
brace-free field contain no braces; each child extension adds exactly one
opening brace and no closing brace; and for any context with no closing
braces and any brace-free probe, the synthesized query has as many opening
braces as closing braces, because one closing token is appended per opening
brace of the context after the innermost probe. -/
theorem C4_balanced_queries :
    ∀ f ctx probe : Str,
      ((countChar '\x7b' f = 0 ∧ countChar '\x7d' f = 0) →
        ∀ c ∈ build_root_context_queries f,
          countChar '\x7b' c = 0 ∧ countChar '\x7d' c = 0) ∧
      ((countChar '\x7b' f = 0 ∧ countChar '\x7d' f = 0) →
        countChar '\x7b' (extendCtx ctx f) = countChar '\x7b' ctx + 1 ∧
        countChar '\x7d' (extendCtx ctx f) = countChar '\x7d' ctx) ∧
      ((countChar '\x7b' probe = 0 ∧ countChar '\x7d' probe = 0 ∧
        countChar '\x7d' ctx = 0) →
        countChar '\x7b' (synthQuery ctx probe) =
          countChar '\x7d' (synthQuery ctx probe)) := by
  intro f ctx probe
  refine ⟨?_, ?_, ?_⟩
  · rintro ⟨h1, h2⟩ c hc
    rcases List.mem_cons.mp hc with hc | hc
    · rw [hc]
      exact ⟨h1, h2⟩
    · rcases List.mem_cons.mp hc with hc | hc
      · rw [hc]
        constructor <;> rw [countChar_append] <;>
          simp [h1, h2] <;> decide
      · simp at hc
  · rintro ⟨h1, h2⟩
    unfold extendCtx
    constructor <;> rw [countChar_append, countChar_append] <;>
      simp [h1, h2] <;> decide
  · rintro ⟨h1, h2, h3⟩
    unfold synthQuery
    rw [countChar_append, countChar_append, countChar_append, countChar_append,
      countChar_append, countChar_append, countChar_append, countChar_append,
      countChar_append, countChar_append, countChar_repeatStr, countChar_repeatStr]
    have e1 : countChar '\x7b' "\x7b ".data = 1 := by decide
    have e2 : countChar '\x7b' " \x7b ".data = 1 := by decide
    have e3 : countChar '\x7b' " \x7d \x7d".data = 0 := by decide
    have e4 : countChar '\x7b' " \x7d".data = 0 := by decide
    have e5 : countChar '\x7d' "\x7b ".data = 0 := by decide
    have e6 : countChar '\x7d' " \x7b ".data = 0 := by decide
    have e7 : countChar '\x7d' " \x7d \x7d".data = 2 := by decide
    have e8 : countChar '\x7d' " \x7d".data = 1 := by decide
    rw [e1, e2, e3, e4, e5, e6, e7, e8, h1, h2, h3]
    ring

/-- C4 witness. -/
theorem C4_witness :
    (countChar '\x7b' "user".data = 0 ∧ countChar '\x7d' "user".data = 0) ∧
    (countChar '\x7b' "xid".data = 0 ∧ countChar '\x7d' "xid".data = 0 ∧
      countChar '\x7d' "user".data = 0) ∧
    countChar '\x7b' (synthQuery "user".data "xid".data) =
      countChar '\x7d' (synthQuery "user".data "xid".data) ∧
    countChar '\x7b' (extendCtx "user".data "user".data) =
      countChar '\x7b' "user".data + 1 :=
  ⟨⟨by decide, by decide⟩, ⟨by decide, by decide, by decide⟩,
   (C4_balanced_queries "user".data "user".data "xid".data).2.2
     ⟨by decide, by decide, by decide⟩,
   ((C4_balanced_queries "user".data "user".data "xid".data).2.1
     ⟨by decide, by decide⟩).1⟩

theorem ptrW_depth_gt {probes : List Str} {env : Str → Option (List GraphQLError)}
    {maxDepth : Nat} {typeName : Str} {ctxs : List Str} {depth : Nat} {st : WalkState}
    (h : depth > maxDepth) :
    probeTypeRecursiveW probes env maxDepth typeName ctxs depth st = st := by
  rw [probeTypeRecursiveW]
  rw [dif_pos h]

theorem ptrW_mem {probes : List Str} {env : Str → Option (List GraphQLError)}
    {maxDepth : Nat} {typeName : Str} {ctxs : List Str} {depth : Nat} {st : WalkState}
    (h : typeName ∈ st.probed) :
    probeTypeRecursiveW probes env maxDepth typeName ctxs depth st = st := by
  rw [probeTypeRecursiveW]
  by_cases hd : depth > maxDepth
  · rw [dif_pos hd]
  · rw [dif_neg hd, dif_pos h]

theorem walkW_inv (n : Nat) :
    ∀ (probes : List Str) (env : Str → Option (List GraphQLError)) (maxDepth : Nat)
      (typeName : Str) (ctxs : List Str) (depth : Nat) (st : WalkState),
      maxDepth + 1 - depth ≤ n →
      st.events.Nodup → (∀ x ∈ st.events, x ∈ st.probed) →
      ((probeTypeRecursiveW probes env maxDepth typeName ctxs depth st).events.Nodup ∧
       ∀ x ∈ (probeTypeRecursiveW probes env maxDepth typeName ctxs depth st).events,
         x ∈ (probeTypeRecursiveW probes env maxDepth typeName ctxs depth st).probed) := by
  induction n with
  | zero =>
    intro probes env maxDepth typeName ctxs depth st hle h1 h2
    have hd : depth > maxDepth := by omega
    rw [ptrW_depth_gt hd]
    exact ⟨h1, h2⟩
  | succ k ih =>
    intro probes env maxDepth typeName ctxs depth st hle h1 h2
    by_cases hd : depth > maxDepth
    · rw [ptrW_depth_gt hd]
      exact ⟨h1, h2⟩
    · by_cases hm : typeName ∈ st.probed
      · rw [ptrW_mem hm]
        exact ⟨h1, h2⟩
      · have hwc : ∀ (children : List (Str × Str)) (st2 : WalkState),
            st2.events.Nodup → (∀ x ∈ st2.events, x ∈ st2.probed) →
            ((walkChildrenW probes env maxDepth typeName ctxs depth children st2).events.Nodup ∧
             ∀ x ∈ (walkChildrenW probes env maxDepth typeName ctxs depth children st2).events,
               x ∈ (walkChildrenW probes env maxDepth typeName ctxs depth children st2).probed) := by
          intro children
          induction children with
          | nil =>
            intro st2 g1 g2
            rw [walkChildrenW]
            exact ⟨g1, g2⟩
          | cons pc rest ihc =>
            intro st2 g1 g2
            cases pc with
            | mk fieldName childType =>
              rw [walkChildrenW]
              have hptr := ih probes env maxDepth childType
                (ctxs.map (fun c => extendCtx c fieldName)) (depth + 1)
                ⟨st2.schema.set_field_type typeName fieldName childType,
                 st2.probed, st2.events⟩ (by omega) g1 g2
              exact ihc _ hptr.1 hptr.2
        rw [probeTypeRecursiveW, dif_neg hd, dif_neg hm]
        apply hwc
        · simp only [List.nodup_append, List.nodup_cons]
          refine ⟨h1, by simp, ?_⟩
          intro x hx
          simp only [List.mem_singleton]
          intro he
          subst he
          exact hm (h2 _ hx)
        · intro x hx
          rcases List.mem_append.mp hx with hx | hx
          · exact List.mem_cons_of_mem _ (h2 _ hx)
          · simp at hx
            subst hx
            exact List.mem_cons_self _ _

/-- C3: the recursive step never probes a type twice: invoking it on an
already-visited type is an immediate no-op returning the state unchanged,
and the insert-if-absent admission test preserves the no-duplicates
invariant of the ghost trace of admitted types (together with the trace
being covered by the visited set), so in any run starting from a
duplicate-free trace every type is fully probed at most once. -/
theorem C3_no_reprobe :
    ∀ (env : Str → Option (List GraphQLError)) (maxDepth : Nat) (typeName : Str)
      (ctxs : List Str) (depth : Nat) (st : WalkState),
      (typeName ∈ st.probed →
        probeTypeRecursive env maxDepth typeName ctxs depth st = st) ∧
      (st.events.Nodup → (∀ x ∈ st.events, x ∈ st.probed) →
        ((probeTypeRecursive env maxDepth typeName ctxs depth st).events.Nodup ∧
         ∀ x ∈ (probeTypeRecursive env maxDepth typeName ctxs depth st).events,
           x ∈ (probeTypeRecursive env maxDepth typeName ctxs depth st).probed)) := by
  intro env maxDepth typeName ctxs depth st
  constructor
  · intro hm
    unfold probeTypeRecursive
    exact ptrW_mem hm
  · intro h1 h2
    unfold probeTypeRecursive
    exact walkW_inv (maxDepth + 1 - depth) full_probe_list env maxDepth typeName ctxs
      depth st (Nat.le_refl _) h1 h2

/-- C3 witness. -/
theorem C3_witness :
    ("User".data ∈ (⟨emptySchema, ["User".data], ["User".data]⟩ : WalkState).probed) ∧
    probeTypeRecursive (fun _ => none) 0 "User".data [] 1
      ⟨emptySchema, ["User".data], ["User".data]⟩ =
      ⟨emptySchema, ["User".data], ["User".data]⟩ ∧
    (probeTypeRecursive (fun _ => none) 0 "User".data [] 1
      ⟨emptySchema, ["User".data], ["User".data]⟩).events.Nodup :=
  ⟨by decide,
   (C3_no_reprobe (fun _ => none) 0 "User".data [] 1
     ⟨emptySchema, ["User".data], ["User".data]⟩).1 (by decide),
   ((C3_no_reprobe (fun _ => none) 0 "User".data [] 1
     ⟨emptySchema, ["User".data], ["User".data]⟩).2 (by decide) (by decide)).1⟩

/-- C5: with max depth 0, phase 2 of the walk records every hinted root
field's type on the root type through set_field_type, and each recursive
probe, called at depth 1, returns immediately: the visited set and the trace
of probed types come back unchanged, so no nested type is ever probed. -/
theorem C5_depth_zero :
    ∀ (env : Str → Option (List GraphQLError)) (rootTypeName : Str)
      (objectFields : List (Str × Str)) (st : WalkState),
      runPhase2 env 0 rootTypeName objectFields st =
        ⟨objectFields.foldl (fun sch p => sch.set_field_type rootTypeName p.1 p.2) st.schema,
         st.probed, st.events⟩ := by
  intro env root ofs st
  induction ofs generalizing st with
  | nil =>
    simp [runPhase2]
  | cons p rest ih =>
    cases p with
    | mk fn tn =>
      unfold runPhase2 at ih ⊢
      simp only [List.foldl_cons]
      have hg : probeTypeRecursive env 0 tn (build_root_context_queries fn) 1
          ⟨st.schema.set_field_type root fn tn, st.probed, st.events⟩ =
          ⟨st.schema.set_field_type root fn tn, st.probed, st.events⟩ := by
        unfold probeTypeRecursive
        exact ptrW_depth_gt (by omega)
      rw [hg]
      exact ih ⟨st.schema.set_field_type root fn tn, st.probed, st.events⟩
